import Mathlib

/-!
Verification of the injectiny dependency-injection library.

This file gives a shallow embedding of the two crates:

* `injectiny_proc_macro` (the attribute macro `injectable`): paths are lists
  of segment identifiers, attributes carry their path and argument tokens,
  a `DeriveInput` is a named struct/enum/union, and the macro's output is
  an executed compile error, or the un-executed quoted error-construction
  tokens of the same-enum check (which the source never executes), or the
  re-emitted definition plus the data of the generated `Injectable` impl
  (the enum path and the list of match arms).
* `injectiny` (the runtime crate): `Injected T` wraps `Option T`; a panic
  (Rust `unwrap` on `None`) is modelled as the dereference returning `none`.
  The generated `inject` body is a first-match-wins dispatch over the arms,
  acting on a struct state modelled as a map from field names to slots.
  `Injector` is modelled as a trace machine recording every producer
  invocation `(producer, target)` in its log.
-/

namespace Injectiny

/-- A `syn::Path`, reduced to the list of its segment identifiers. -/
structure EnumMember where
  path : List String
deriving DecidableEq

/-- `EnumMember::has_enum_name`: zips the given enum path with the member's
own path and requires the overlapping leading segments to agree. -/
def EnumMember.has_enum_name (m : EnumMember) (path : List String) : Bool :=
  (path.zip m.path).all fun ab => ab.1 == ab.2

/-- `<EnumMember as syn::parse::Parse>::parse`, applied to the path found
inside the attribute's parentheses: fewer than two segments is an error. -/
def EnumMember.parse (path : List String) : Except String EnumMember :=
  if path.length < 2 then
    Except.error "Expected enum member to be of the form `Enum::Member`"
  else
    Except.ok { path := path }

/-- A `syn::Attribute`: its path (e.g. `inject`) and the path written inside
its parenthesized argument tokens (e.g. `Model::Name`). -/
structure Attribute where
  path : List String
  tokens : List String
deriving DecidableEq

/-- `Attribute::path.get_ident()`: a single-segment path yields its ident. -/
def Attribute.get_ident (a : Attribute) : Option String :=
  match a.path with
  | [ident] => some ident
  | _ => none

/-- A named struct field: identifier, type, attributes. -/
structure Field where
  ident : String
  ty : String
  attrs : List Attribute
deriving DecidableEq

/-- A `syn::Data`: struct with fields, or enum, or union. -/
inductive Data where
  | Struct (fields : List Field)
  | Enum
  | Union
deriving DecidableEq

/-- A `syn::DeriveInput`: the item's identifier and its data. -/
structure DeriveInput where
  ident : String
  data : Data
deriving DecidableEq

/-- The closure passed to `Iterator::position` in `get_inject_attrib_index`:
the attribute's path is the single ident `inject`. -/
def attr_is_inject (attr : Attribute) : Bool :=
  match attr.get_ident with
  | some ident => ident == "inject"
  | none => false

/-- `Iterator::position`: index of the first element satisfying `p`. -/
def position {α : Type} (p : α → Bool) : List α → Option Nat
  | [] => none
  | a :: rest => if p a then some 0 else (position p rest).map (· + 1)

/-- `get_inject_attrib_index`: index of the first `#[inject(...)]` attribute
of the field, if any. -/
def get_inject_attrib_index (field : Field) : Option Nat :=
  position attr_is_inject field.attrs

/-- `parse_injected_fields`: for a struct, remove the first `inject`
attribute from each field that has one and collect those (field, attribute)
pairs; the re-emitted definition keeps the mutated fields.  For a non-struct
the source builds the "Injectable can only be applied to structs" error
tokens but discards them (the `quote!` statement's value is unused), so the
input is returned unchanged with no collected fields. -/
def parse_injected_fields (ast : DeriveInput) :
    DeriveInput × List (Field × Attribute) :=
  match ast.data with
  | Data.Struct fields0 =>
    let processed := fields0.map fun field =>
      match get_inject_attrib_index field with
      | some i =>
        match field.attrs[i]? with
        | some attrib =>
          ({ field with attrs := field.attrs.eraseIdx i }, some attrib)
        | none => (field, none)
      | none => (field, none)
    ({ ast with data := Data.Struct (processed.map Prod.fst) },
     processed.filterMap fun fa => fa.2.map fun attrib => (fa.1, attrib))
  | _ => (ast, [])

/-- One generated match arm `Enum::Member(value) => self.field = ...`. -/
structure MatchArm where
  member : EnumMember
  field_name : String
deriving DecidableEq

/-- The token stream returned by the `injectable` macro.
`CompileError msg` is an executed `syn::Error`, i.e. genuine
`compile_error!(msg)` tokens (what `parse_macro_input!` produces on a parse
failure).  `QuotedErrorConstruction msg` is different: the source text
`syn::Error::new_spanned(ast, msg).to_compile_error().into()` itself,
emitted as literal tokens because the source wraps the whole construction
in `quote!` without ever executing it — downstream those tokens are
malformed items, so the build fails with a syntax error, not with the
carried message `msg`.  `Generated` is the success case: the re-emitted
definition together with the generated impl data
(`impl Injectable<enum_val> for impl_name` with the given match arms). -/
inductive TokenOutput where
  | CompileError (msg : String)
  | QuotedErrorConstruction (msg : String)
  | Generated (ast : DeriveInput) (impl_name : String) (enum_val : List String)
      (arms : List MatchArm)
deriving DecidableEq

/-- The `for (field, attrib) in fields` loop of `injectable`: parse each
attribute's argument as an `EnumMember`, abort on a parse error (here
`parse_macro_input!` really executes `to_compile_error`, yielding
`CompileError`), and on a member that does not match the declared enum path
return the same-enum error construction quoted as literal tokens: the
source writes `return quote!(syn::Error::new_spanned(ast, "All injected
fields must be from the same enum").to_compile_error().into()).into()`,
quoting the construction instead of executing it, so the output is
`QuotedErrorConstruction` and not a `CompileError` diagnostic.  On success
append the match arm. -/
def injectable_loop (ast : DeriveInput) (enum_val : List String) :
    List (Field × Attribute) → List MatchArm → TokenOutput
  | [], ms => TokenOutput.Generated ast ast.ident enum_val ms
  | (field, attrib) :: rest, ms =>
    match EnumMember.parse attrib.tokens with
    | Except.error e => TokenOutput.CompileError e
    | Except.ok member =>
      if member.has_enum_name enum_val then
        injectable_loop ast enum_val rest
          (ms ++ [{ member := member, field_name := field.ident }])
      else
        TokenOutput.QuotedErrorConstruction
          "All injected fields must be from the same enum"

/-- The `injectable` attribute macro: parse the injected fields out of the
input, then run the arm-building loop. -/
def injectable (attr : List String) (input : DeriveInput) : TokenOutput :=
  let enum_val := attr
  let pf := parse_injected_fields input
  injectable_loop pf.1 enum_val pf.2 []

/-- `Injected<T>`: an optional-value slot. -/
structure Injected (T : Type) where
  value : Option T
deriving DecidableEq

/-- `Injected::from`: a populated slot. -/
def Injected.from {T : Type} (value : T) : Injected T :=
  { value := some value }

/-- `Injected::is_injected`. -/
def Injected.is_injected {T : Type} (i : Injected T) : Bool :=
  i.value.isSome

/-- `<Injected<T> as Default>::default`: the empty slot. -/
def Injected.default {T : Type} : Injected T :=
  { value := none }

/-- `<Injected<T> as Deref>::deref`, i.e. `self.value.as_ref().unwrap()`:
the Rust panic of `unwrap` on an empty slot is modelled as `none`. -/
def Injected.deref {T : Type} (i : Injected T) : Option T :=
  i.value

/-- `<Injected<T> as DerefMut>::deref_mut`, i.e.
`self.value.as_mut().unwrap()`; panic modelled as `none`. -/
def Injected.deref_mut {T : Type} (i : Injected T) : Option T :=
  i.value

/-- A runtime value of the model enum: the constructor's path and its
payload.  `V` stands for the (common) payload type. -/
structure EnumValue (V : Type) where
  variant : List String
  payload : V

/-- Whether a match arm's pattern `member(value)` matches a value of the
given variant: the constructor tags are equal. -/
def arm_matches (variant : List String) (arm : MatchArm) : Bool :=
  decide (arm.member.path = variant)

/-- The body generated for `fn inject(&mut self, model: E)`: a `match` over
the arms in order, first matching arm assigns `self.field = Injected::from
(value)`, and the trailing `_ => {}` arm does nothing.  The struct state is
a map from field names to slots. -/
def generated_inject {V : Type} (arms : List MatchArm)
    (self : String → Injected V) (model : EnumValue V) : String → Injected V :=
  match arms with
  | [] => self
  | arm :: rest =>
    if arm_matches model.variant arm then
      fun name =>
        if name = arm.field_name then Injected.from model.payload
        else self name
    else
      generated_inject rest self model

/-- One registration call on an `Injector`: `inject` registers a producer
(value factory), `to` registers a target. -/
inductive InjectorOp (P T : Type) where
  | inject (p : P)
  | to (t : T)
deriving DecidableEq

/-- The observable state of an `Injector`: the registered factories and
targets, plus a log recording, in order, every `target.inject(factory())`
call as the pair (producer, target) — each log entry is one fresh
invocation of the producer followed by one inject call on the target. -/
structure InjectorState (P T : Type) where
  factories : List P
  targets : List T
  log : List (P × T)
deriving DecidableEq

/-- `Injector::new`. -/
def Injector.new {P T : Type} : InjectorState P T :=
  { factories := [], targets := [], log := [] }

/-- One registration step.  `Injector::inject` pushes the factory and then
invokes it once for every already-registered target; `Injector::to` invokes
every already-registered factory once against the new target and then
pushes the target. -/
def Injector.step {P T : Type} (s : InjectorState P T) :
    InjectorOp P T → InjectorState P T
  | InjectorOp.inject p =>
    { factories := s.factories ++ [p]
      targets := s.targets
      log := s.log ++ s.targets.map fun t => (p, t) }
  | InjectorOp.to t =>
    { factories := s.factories
      targets := s.targets ++ [t]
      log := s.log ++ s.factories.map fun p => (p, t) }

/-- Running an interleaved sequence of registration calls from a fresh
`Injector`. -/
def Injector.run {P T : Type} (ops : List (InjectorOp P T)) :
    InjectorState P T :=
  ops.foldl Injector.step Injector.new

/-! Concrete fixtures: the `Injectee` struct of the crate's documentation,
with fields `name` and `age` bound to `Model::Name` and `Model::Age`. -/

/-- The doc example's `name` field with its `#[inject(Model::Name)]`. -/
def exFieldName : Field :=
  { ident := "name", ty := "Injected"
    attrs := [{ path := ["inject"], tokens := ["Model", "Name"] }] }

/-- The doc example's `age` field with its `#[inject(Model::Age)]`. -/
def exFieldAge : Field :=
  { ident := "age", ty := "Injected"
    attrs := [{ path := ["inject"], tokens := ["Model", "Age"] }] }

/-- The doc example's `Injectee` struct. -/
def exInput : DeriveInput :=
  { ident := "Injectee", data := Data.Struct [exFieldName, exFieldAge] }

/-- The match arms generated for `exInput`. -/
def exArms : List MatchArm :=
  [{ member := { path := ["Model", "Name"] }, field_name := "name" },
   { member := { path := ["Model", "Age"] }, field_name := "age" }]

/-- The re-emitted `Injectee` definition: inject annotations stripped. -/
def exAst : DeriveInput :=
  { ident := "Injectee"
    data := Data.Struct
      [{ ident := "name", ty := "Injected", attrs := [] },
       { ident := "age", ty := "Injected", attrs := [] }] }

/-- A struct with two fields bound to the same variant `Model::Name`. -/
def exDupInput : DeriveInput :=
  { ident := "Dup"
    data := Data.Struct
      [{ ident := "first", ty := "Injected"
         attrs := [{ path := ["inject"], tokens := ["Model", "Name"] }] },
       { ident := "second", ty := "Injected"
         attrs := [{ path := ["inject"], tokens := ["Model", "Name"] }] }] }

/-- The match arms generated for `exDupInput`: two arms with the same
pattern, in declaration order. -/
def exDupArms : List MatchArm :=
  [{ member := { path := ["Model", "Name"] }, field_name := "first" },
   { member := { path := ["Model", "Name"] }, field_name := "second" }]

/-- The re-emitted `Dup` definition. -/
def exDupAst : DeriveInput :=
  { ident := "Dup"
    data := Data.Struct
      [{ ident := "first", ty := "Injected", attrs := [] },
       { ident := "second", ty := "Injected", attrs := [] }] }

/-- The generated dispatch is first-match-wins: its effect at any field name
is decided by `List.find?` over the arms. -/
theorem generated_inject_eq_find {V : Type} (arms : List MatchArm)
    (self : String → Injected V) (model : EnumValue V) (g : String) :
    generated_inject arms self model g =
      match arms.find? (arm_matches model.variant) with
      | some a =>
        if g = a.field_name then Injected.from model.payload else self g
      | none => self g := by
  induction arms with
  | nil => rfl
  | cons a rest ih =>
    cases h : arm_matches model.variant a with
    | true =>
      simp only [generated_inject, h, if_true, List.find?_cons_of_pos _ h]
    | false =>
      have h' : ¬ arm_matches model.variant a := by simp [h]
      simp [generated_inject, h, List.find?_cons_of_neg _ h', ih]

/-- Claim C1: for a data-holder whose annotations parse and validate
successfully (the macro returns a generated impl), with field `f` bound to
variant `v` (the dispatch's arm for `v` stores into `f`), calling the
generated inject with a value `E::v(x)` leaves `f` populated with `x`,
i.e. `f` becomes `Injected::from(x)`. -/
theorem claim_C1_inject_populates_bound_field {V : Type}
    (attr : List String) (input ast : DeriveInput) (nm : String)
    (ev v : List String) (arms : List MatchArm) (f : String)
    (hgen : injectable attr input = TokenOutput.Generated ast nm ev arms)
    (hfirst : arms.find? (arm_matches v) =
      some { member := { path := v }, field_name := f })
    (self : String → Injected V) (x : V) :
    generated_inject arms self { variant := v, payload := x } f
      = Injected.from x := by
  rw [generated_inject_eq_find]
  simp [hfirst]

/-- Claim C1 witness: the doc example's `Injectee`, injecting
`Model::Name(42)` populates the `name` field. -/
theorem claim_C1_witness :
    generated_inject exArms (fun _ => Injected.default)
      { variant := ["Model", "Name"], payload := (42 : Nat) } "name"
      = Injected.from 42 :=
  claim_C1_inject_populates_bound_field ["Model"] exInput exAst "Injectee"
    ["Model"] ["Model", "Name"] exArms "name" (by decide) (by decide)
    (fun _ => Injected.default) 42

/-- Claim C2: for a generated data-holder, inject changes only the field
bound to the value's variant: every field name that no arm of the value's
variant stores into keeps its old slot, and when no arm matches the variant
at all the whole state is unchanged (a total no-op, never an error). -/
theorem claim_C2_inject_frame {V : Type}
    (attr : List String) (input ast : DeriveInput) (nm : String)
    (ev : List String) (arms : List MatchArm)
    (hgen : injectable attr input = TokenOutput.Generated ast nm ev arms)
    (self : String → Injected V) (model : EnumValue V) :
    (∀ g : String,
        (∀ a ∈ arms, a.member.path = model.variant → a.field_name ≠ g) →
        generated_inject arms self model g = self g)
  ∧ ((∀ a ∈ arms, a.member.path ≠ model.variant) →
      ∀ g : String, generated_inject arms self model g = self g) := by
  constructor
  · intro g hg
    rw [generated_inject_eq_find]
    cases hf : arms.find? (arm_matches model.variant) with
    | none => rfl
    | some a =>
      have hmem : a ∈ arms := List.mem_of_find?_eq_some hf
      have hp : arm_matches model.variant a = true := List.find?_some hf
      have hv : a.member.path = model.variant := by
        simpa [arm_matches] using hp
      have hne : a.field_name ≠ g := hg a hmem hv
      simp only []
      rw [if_neg (Ne.symm hne)]
  · intro hnone g
    rw [generated_inject_eq_find]
    cases hf : arms.find? (arm_matches model.variant) with
    | none => rfl
    | some a =>
      have hmem : a ∈ arms := List.mem_of_find?_eq_some hf
      have hp : arm_matches model.variant a = true := List.find?_some hf
      have hv : a.member.path = model.variant := by
        simpa [arm_matches] using hp
      exact absurd hv (hnone a hmem)

/-- Claim C2 witness: injecting `Model::Name(7)` into the doc example's
`Injectee` leaves the `age` field untouched. -/
theorem claim_C2_witness :
    generated_inject exArms (fun _ => Injected.default)
      { variant := ["Model", "Name"], payload := (7 : Nat) } "age"
      = Injected.default :=
  (claim_C2_inject_frame ["Model"] exInput exAst "Injectee" ["Model"] exArms
      (by decide) (fun _ => Injected.default)
      { variant := ["Model", "Name"], payload := (7 : Nat) }).1 "age"
    (by decide)

/-- Claim C6: reading an `Injected` slot (via `Deref` or `DerefMut`) while
empty is the `unwrap` panic (modelled as `none`) — it never yields a
default value of `T`; reading a populated slot returns exactly the stored
value. -/
theorem claim_C6_deref_empty_fails :
    ∀ (T : Type) (x : T),
      (Injected.default : Injected T).deref = none
    ∧ (Injected.default : Injected T).deref_mut = none
    ∧ (Injected.from x).deref = some x
    ∧ (Injected.from x).deref_mut = some x :=
  fun _ _ => ⟨rfl, rfl, rfl, rfl⟩

/-- Claim C7: for a generated data-holder, injecting `E::v(x1)` and then
`E::v(x2)` yields, at every field, the same slot as injecting only
`E::v(x2)`; in particular the field the variant's arm stores into ends up
holding `Injected::from(x2)` — last write wins. -/
theorem claim_C7_last_write_wins {V : Type}
    (attr : List String) (input ast : DeriveInput) (nm : String)
    (ev v : List String) (arms : List MatchArm)
    (hgen : injectable attr input = TokenOutput.Generated ast nm ev arms)
    (self : String → Injected V) (x1 x2 : V) :
    (∀ g : String,
        generated_inject arms
            (generated_inject arms self { variant := v, payload := x1 })
            { variant := v, payload := x2 } g
          = generated_inject arms self { variant := v, payload := x2 } g)
  ∧ (∀ a : MatchArm, arms.find? (arm_matches v) = some a →
        generated_inject arms
            (generated_inject arms self { variant := v, payload := x1 })
            { variant := v, payload := x2 } a.field_name
          = Injected.from x2) := by
  have key : ∀ g : String,
      generated_inject arms
          (generated_inject arms self { variant := v, payload := x1 })
          { variant := v, payload := x2 } g
        = generated_inject arms self { variant := v, payload := x2 } g := by
    intro g
    rw [generated_inject_eq_find, generated_inject_eq_find,
      generated_inject_eq_find]
    cases hf : arms.find? (arm_matches v) with
    | none => rfl
    | some a =>
      by_cases hgf : g = a.field_name
      · simp [hgf]
      · simp [hgf]
  refine ⟨key, fun a hf => ?_⟩
  rw [key a.field_name, generated_inject_eq_find]
  simp [hf]

/-- Claim C7 witness: re-injecting `Model::Age` into the doc example's
`Injectee` overwrites the first value. -/
theorem claim_C7_witness :
    generated_inject exArms
      (generated_inject exArms (fun _ => Injected.default)
        { variant := ["Model", "Age"], payload := (1 : Nat) })
      { variant := ["Model", "Age"], payload := (2 : Nat) } "age"
      = Injected.from 2 :=
  (claim_C7_last_write_wins ["Model"] exInput exAst "Injectee" ["Model"]
      ["Model", "Age"] exArms (by decide) (fun _ => Injected.default) 1 2).2
    { member := { path := ["Model", "Age"] }, field_name := "age" } (by decide)

/-- Claim C10: when two fields of one data-holder are bound to the same
variant `v` (the validator accepts this), injecting `E::v(x)` populates
only the first such field in declaration order — the arm found first — and
every later field bound to `v` keeps its old slot. -/
theorem claim_C10_first_binding_wins {V : Type}
    (attr : List String) (input ast : DeriveInput) (nm : String)
    (ev v : List String) (arms : List MatchArm) (f1 f2 : String)
    (hgen : injectable attr input = TokenOutput.Generated ast nm ev arms)
    (hfirst : arms.find? (arm_matches v) =
      some { member := { path := v }, field_name := f1 })
    (hdup : ({ member := { path := v }, field_name := f2 } : MatchArm) ∈ arms)
    (hne : f2 ≠ f1)
    (self : String → Injected V) (x : V) :
    generated_inject arms self { variant := v, payload := x } f1
        = Injected.from x
  ∧ generated_inject arms self { variant := v, payload := x } f2 = self f2 := by
  constructor
  · rw [generated_inject_eq_find]
    simp [hfirst]
  · rw [generated_inject_eq_find]
    simp only [hfirst]
    simp [hne]

/-- Claim C10 witness: with `first` and `second` both bound to
`Model::Name`, injecting `Model::Name(9)` populates `first` only. -/
theorem claim_C10_witness :
    generated_inject exDupArms (fun _ => Injected.default)
      { variant := ["Model", "Name"], payload := (9 : Nat) } "first"
      = Injected.from 9
  ∧ generated_inject exDupArms (fun _ => Injected.default)
      { variant := ["Model", "Name"], payload := (9 : Nat) } "second"
      = Injected.default :=
  claim_C10_first_binding_wins ["Model"] exDupInput exDupAst "Dup" ["Model"]
    ["Model", "Name"] exDupArms "first" "second" (by decide) (by decide)
    (by decide) (by decide) (fun _ => Injected.default) 9

/-- Counting a pair in the log entries produced by one `Injector::inject`
step: the producer component must match, the target ranges over the
already-registered targets. -/
theorem count_pair_map_left {P T : Type} [DecidableEq P] [DecidableEq T]
    (q p : P) (t : T) (l : List T) :
    ((l.map fun u => (q, u)).count (p, t)) =
      if q = p then l.count t else 0 := by
  induction l with
  | nil => simp
  | cons a l ih =>
    simp only [List.map_cons, List.count_cons, ih, beq_iff_eq, Prod.mk.injEq]
    by_cases hq : q = p
    · subst hq
      by_cases ha : t = a <;> simp [ha]
    · have h1 : ¬ (p = q) := fun hpq => hq hpq.symm
      simp [hq, h1]

/-- Counting a pair in the log entries produced by one `Injector::to` step:
the target component must match, the producer ranges over the
already-registered factories. -/
theorem count_pair_map_right {P T : Type} [DecidableEq P] [DecidableEq T]
    (r t : T) (p : P) (l : List P) :
    ((l.map fun u => (u, r)).count (p, t)) =
      if r = t then l.count p else 0 := by
  induction l with
  | nil => simp
  | cons a l ih =>
    simp only [List.map_cons, List.count_cons, ih, beq_iff_eq, Prod.mk.injEq]
    by_cases hr : r = t
    · subst hr
      by_cases ha : p = a <;> simp [ha]
    · have h1 : ¬ (t = r) := fun htr => hr htr.symm
      simp [hr, h1]

/-- How often the pair (p, t) occurs in the log after running `ops` from an
arbitrary injector state: the pending registrations pair with the already
registered ones and with each other, each pairing exactly once. -/
theorem run_log_count {P T : Type} [DecidableEq P] [DecidableEq T]
    (ops : List (InjectorOp P T)) (s : InjectorState P T) (p : P) (t : T) :
    ((ops.foldl Injector.step s).log.count (p, t)) =
      s.log.count (p, t)
        + s.targets.count t * ops.count (InjectorOp.inject p)
        + s.factories.count p * ops.count (InjectorOp.to t)
        + ops.count (InjectorOp.inject p) * ops.count (InjectorOp.to t) := by
  induction ops generalizing s with
  | nil => simp
  | cons op ops ih =>
    obtain q | r := op
    · rw [List.foldl_cons, ih]
      simp only [Injector.step, List.count_append, List.count_cons,
        count_pair_map_left, beq_iff_eq, InjectorOp.inject.injEq]
      by_cases hq : q = p
      · subst hq
        have h2 : (InjectorOp.inject q : InjectorOp P T) ≠ InjectorOp.to t := by
          intro h; cases h
        simp [h2]
        ring
      · have h1 : ¬ ((p : P) = q) := fun h => hq h.symm
        have h2 : (InjectorOp.inject q : InjectorOp P T) ≠ InjectorOp.to t := by
          intro h; cases h
        simp [hq, h1, h2]
    · rw [List.foldl_cons, ih]
      simp only [Injector.step, List.count_append, List.count_cons,
        count_pair_map_right, beq_iff_eq, InjectorOp.to.injEq]
      by_cases hr : r = t
      · subst hr
        have h2 : (InjectorOp.to r : InjectorOp P T) ≠ InjectorOp.inject p := by
          intro h; cases h
        simp [h2]
        ring
      · have h1 : ¬ ((t : T) = r) := fun h => hr h.symm
        have h2 : (InjectorOp.to r : InjectorOp P T) ≠ InjectorOp.inject p := by
          intro h; cases h
        simp [hr, h1, h2]

/-- Claim C3: over any interleaved sequence of `Injector::inject` (producer
registration) and `Injector::to` (target registration) calls, a producer
registered once and a target registered once give rise to exactly one
producer invocation paired with that target — one `target.inject(factory())`
call — whether the producer or the target was registered first; the log
counts invocations, so the producer is re-invoked fresh for each pairing
rather than cached. -/
theorem claim_C3_injector_pair_count {P T : Type} [DecidableEq P]
    [DecidableEq T] (ops : List (InjectorOp P T)) (p : P) (t : T)
    (h1 : ops.count (InjectorOp.inject p) = 1)
    (h2 : ops.count (InjectorOp.to t) = 1) :
    (Injector.run ops).log.count (p, t) = 1 := by
  unfold Injector.run
  rw [run_log_count, h1, h2]
  simp [Injector.new]

/-- Claim C3 witness: producer 0 registered before target 5, producer 1
after it; each pair is logged exactly once. -/
theorem claim_C3_witness :
    ((Injector.run [InjectorOp.inject (0 : Nat), InjectorOp.to (5 : Nat),
        InjectorOp.inject 1]).log.count ((0 : Nat), (5 : Nat)) = 1)
  ∧ ((Injector.run [InjectorOp.inject (0 : Nat), InjectorOp.to (5 : Nat),
        InjectorOp.inject 1]).log.count ((1 : Nat), (5 : Nat)) = 1) :=
  ⟨claim_C3_injector_pair_count
      [InjectorOp.inject 0, InjectorOp.to 5, InjectorOp.inject 1] 0 5
      (by decide) (by decide),
   claim_C3_injector_pair_count
      [InjectorOp.inject 0, InjectorOp.to 5, InjectorOp.inject 1] 1 5
      (by decide) (by decide)⟩

/-- When every collected annotation has at least two segments and matches
the declared enum, the loop reaches the end of the field list and emits one
arm per binding, in binding order. -/
theorem injectable_loop_all_match (ast : DeriveInput) (ev : List String) :
    ∀ (fields : List (Field × Attribute)) (ms : List MatchArm),
      (∀ fa ∈ fields, 2 ≤ fa.2.tokens.length) →
      (∀ fa ∈ fields,
        EnumMember.has_enum_name { path := fa.2.tokens } ev = true) →
      injectable_loop ast ev fields ms =
        TokenOutput.Generated ast ast.ident ev
          (ms ++ fields.map fun fa =>
            { member := { path := fa.2.tokens }, field_name := fa.1.ident }) := by
  intro fields
  induction fields with
  | nil =>
    intro ms _ _
    simp [injectable_loop]
  | cons fa rest ih =>
    intro ms hlen hok
    obtain ⟨field, attrib⟩ := fa
    have hl : ¬ (attrib.tokens.length < 2) := by
      have h2 : 2 ≤ attrib.tokens.length :=
        hlen (field, attrib) (List.mem_cons_self _ _)
      omega
    have hparse : EnumMember.parse attrib.tokens =
        Except.ok { path := attrib.tokens } := by
      unfold EnumMember.parse
      rw [if_neg hl]
    have hm : EnumMember.has_enum_name { path := attrib.tokens } ev = true :=
      hok (field, attrib) (List.mem_cons_self _ _)
    unfold injectable_loop
    simp only [hparse, hm, if_true]
    rw [ih _ (fun fa h => hlen fa (List.mem_cons_of_mem _ h))
      (fun fa h => hok fa (List.mem_cons_of_mem _ h))]
    simp

/-- When every collected annotation parses but some binding's member does
not match the declared enum, the loop aborts, returning the quoted
(un-executed) same-enum error construction — not a `CompileError`
diagnostic. -/
theorem injectable_loop_mismatch (ast : DeriveInput) (ev : List String) :
    ∀ (fields : List (Field × Attribute)) (ms : List MatchArm),
      (∀ fa ∈ fields, 2 ≤ fa.2.tokens.length) →
      (∃ fa ∈ fields,
        EnumMember.has_enum_name { path := fa.2.tokens } ev = false) →
      injectable_loop ast ev fields ms =
        TokenOutput.QuotedErrorConstruction
          "All injected fields must be from the same enum" := by
  intro fields
  induction fields with
  | nil =>
    intro ms _ hex
    simp at hex
  | cons fa rest ih =>
    intro ms hlen hex
    obtain ⟨field, attrib⟩ := fa
    have hl : ¬ (attrib.tokens.length < 2) := by
      have h2 : 2 ≤ attrib.tokens.length :=
        hlen (field, attrib) (List.mem_cons_self _ _)
      omega
    have hparse : EnumMember.parse attrib.tokens =
        Except.ok { path := attrib.tokens } := by
      unfold EnumMember.parse
      rw [if_neg hl]
    unfold injectable_loop
    simp only [hparse]
    cases hm : EnumMember.has_enum_name { path := attrib.tokens } ev with
    | false => simp [hm]
    | true =>
      simp only [hm, if_true]
      refine ih _ (fun fa h => hlen fa (List.mem_cons_of_mem _ h)) ?_
      rcases hex with ⟨fa, hmem, hfa⟩
      rcases List.mem_cons.mp hmem with heq | hmem2
      · exfalso
        rw [heq] at hfa
        rw [hfa] at hm
        cases hm
      · exact ⟨fa, hmem2, hfa⟩

/-- The `parse_injected_fields` pass keeps the item's identifier. -/
theorem parse_injected_fields_ident (n : String) (fs : List Field) :
    (parse_injected_fields { ident := n, data := Data.Struct fs }).1.ident
      = n := rfl

/-- For a data-holder declared with enum path `E`, provided every collected
annotation parses (at least two segments): a binding failing
`has_enum_name` against `E` makes the macro return the quoted, un-executed
same-enum error construction (no impl emitted, but also no executed
diagnostic); if every binding's member passes, validation succeeds and
every binding reaches the synthesizer — the output carries one arm per
binding, in order. -/
theorem injectable_same_enum_validation (attr : List String) (n : String)
    (fs : List Field)
    (hparse : ∀ fa ∈ (parse_injected_fields
        { ident := n, data := Data.Struct fs }).2, 2 ≤ fa.2.tokens.length) :
    ((∃ fa ∈ (parse_injected_fields { ident := n, data := Data.Struct fs }).2,
        EnumMember.has_enum_name { path := fa.2.tokens } attr = false) →
      injectable attr { ident := n, data := Data.Struct fs } =
        TokenOutput.QuotedErrorConstruction
          "All injected fields must be from the same enum")
  ∧ ((∀ fa ∈ (parse_injected_fields { ident := n, data := Data.Struct fs }).2,
        EnumMember.has_enum_name { path := fa.2.tokens } attr = true) →
      injectable attr { ident := n, data := Data.Struct fs } =
        TokenOutput.Generated
          (parse_injected_fields { ident := n, data := Data.Struct fs }).1
          n attr
          ((parse_injected_fields { ident := n, data := Data.Struct fs }).2.map
            fun fa => { member := { path := fa.2.tokens }
                        field_name := fa.1.ident })) := by
  constructor
  · intro hex
    unfold injectable
    exact injectable_loop_mismatch _ _ _ [] hparse hex
  · intro hall
    unfold injectable
    rw [injectable_loop_all_match _ _ _ [] hparse hall]
    rw [parse_injected_fields_ident]
    simp

/-- A struct whose two fields are annotated against different enums. -/
def exMismatchInput : DeriveInput :=
  { ident := "Bad"
    data := Data.Struct
      [{ ident := "x", ty := "Injected"
         attrs := [{ path := ["inject"], tokens := ["A", "X"] }] },
       { ident := "y", ty := "Injected"
         attrs := [{ path := ["inject"], tokens := ["B", "Y"] }] }] }

/-- Claim C4 evaluated on the code (code bug): at the first mismatching
binding the macro returns the error construction QUOTED as literal tokens
(`syn::Error::new_spanned(ast, "All injected fields must be from the same
enum").to_compile_error().into()` as source text, never executed), so the
build fails with a syntax error on those malformed item tokens and not
with the "All injected fields must be from the same enum" diagnostic the
claim (and the code's own message string) intends; no `Injectable` impl is
emitted either way.  When every binding matches the declared enum,
validation passes and all bindings reach the synthesizer. -/
theorem claim_C4_mismatch_quoted_error :
    (injectable ["A"] exMismatchInput =
      TokenOutput.QuotedErrorConstruction
        "All injected fields must be from the same enum")
  ∧ (∀ msg : String,
      injectable ["A"] exMismatchInput ≠ TokenOutput.CompileError msg)
  ∧ (injectable ["Model"] exInput =
      TokenOutput.Generated exAst "Injectee" ["Model"] exArms) := by
  refine ⟨by decide, ?_, by decide⟩
  intro msg h
  have heval : injectable ["A"] exMismatchInput =
      TokenOutput.QuotedErrorConstruction
        "All injected fields must be from the same enum" := by decide
  rw [heval] at h
  cases h

/-- Claim C5: parsing a field annotation's path fails exactly when it has
fewer than two segments, with the "Expected enum member to be of the form
`Enum::Member`" diagnostic; two or more segments parse into an
`EnumMember`; and a failing annotation aborts generation for the whole
type with that diagnostic. -/
theorem claim_C5_parse_two_segments (path : List String) :
    (path.length < 2 →
      EnumMember.parse path =
        Except.error "Expected enum member to be of the form `Enum::Member`")
  ∧ (2 ≤ path.length → EnumMember.parse path = Except.ok { path := path })
  ∧ (∀ (ast : DeriveInput) (ev : List String) (field : Field)
      (attrib : Attribute) (rest : List (Field × Attribute))
      (ms : List MatchArm), attrib.tokens = path → path.length < 2 →
      injectable_loop ast ev ((field, attrib) :: rest) ms =
        TokenOutput.CompileError
          "Expected enum member to be of the form `Enum::Member`") := by
  refine ⟨fun h => ?_, fun h => ?_, ?_⟩
  · simp [EnumMember.parse, h]
  · have h2 : ¬ (path.length < 2) := by omega
    simp [EnumMember.parse, h2]
  · intro ast ev field attrib rest ms htoks hlt
    have hparse : EnumMember.parse attrib.tokens =
        Except.error "Expected enum member to be of the form `Enum::Member`" := by
      rw [htoks]
      simp [EnumMember.parse, hlt]
    unfold injectable_loop
    simp only [hparse]

/-- Claim C5 witness: the single-segment path `Foo` is rejected with the
diagnostic and aborts generation; `Model::Name` parses. -/
theorem claim_C5_witness :
    (EnumMember.parse ["Foo"] =
      Except.error "Expected enum member to be of the form `Enum::Member`")
  ∧ (EnumMember.parse ["Model", "Name"] =
      Except.ok { path := ["Model", "Name"] })
  ∧ (injectable_loop exAst ["Model"]
      [({ ident := "x", ty := "Injected", attrs := [] },
        { path := ["inject"], tokens := ["Foo"] })] [] =
      TokenOutput.CompileError
        "Expected enum member to be of the form `Enum::Member`") :=
  ⟨(claim_C5_parse_two_segments ["Foo"]).1 (by decide),
   (claim_C5_parse_two_segments ["Model", "Name"]).2.1 (by decide),
   (claim_C5_parse_two_segments ["Foo"]).2.2 exAst ["Model"]
     { ident := "x", ty := "Injected", attrs := [] }
     { path := ["inject"], tokens := ["Foo"] } [] [] rfl (by decide)⟩

/-- Claim C8 evaluated on the code (code bug): applying `injectable` to an
enum does NOT abort.  The source constructs the "Injectable can only be
applied to structs" error tokens but never returns them (the `quote!`
statement's value is dropped), so the macro re-emits the enum unchanged and
still emits an `Injectable` impl whose inject is an empty no-op match. -/
theorem claim_C8_nonstruct_emits_impl :
    injectable ["Model"] { ident := "Foo", data := Data.Enum } =
      TokenOutput.Generated { ident := "Foo", data := Data.Enum } "Foo"
        ["Model"] [] := by decide

/-- The re-emitted definition as claim C9 describes it: every `inject`
annotation removed from the fields (stated from the claim's words, for
comparison with what the code does). -/
def strip_all_inject (d : DeriveInput) : DeriveInput :=
  match d.data with
  | Data.Struct fs =>
    { ident := d.ident
      data := Data.Struct (fs.map fun f =>
        { f with attrs := f.attrs.filter fun a => !(attr_is_inject a) }) }
  | _ => d

/-- Removing only the first `inject` attribute of an attribute list — the
effect of the source's `position` followed by `Vec::remove`. -/
def remove_first_inject : List Attribute → List Attribute
  | [] => []
  | a :: rest =>
    if attr_is_inject a then rest else a :: remove_first_inject rest

/-- A field as the macro re-emits it: the first `inject` attribute gone,
identifier, type and all other attributes unchanged. -/
def strip_first_inject_field (f : Field) : Field :=
  { f with attrs := remove_first_inject f.attrs }

/-- `position` only returns indices inside the list. -/
theorem position_lt_length {α : Type} (p : α → Bool) :
    ∀ (l : List α) (i : Nat), position p l = some i → i < l.length := by
  intro l
  induction l with
  | nil => intro i h; cases h
  | cons a rest ih =>
    intro i h
    unfold position at h
    by_cases hp : p a
    · rw [if_pos hp] at h
      cases h
      simp
    · rw [if_neg hp] at h
      cases hj : position p rest with
      | none => rw [hj] at h; cases h
      | some j =>
        rw [hj] at h
        cases h
        have := ih j hj
        simp
        omega

/-- When no attribute satisfies the predicate, removal is the identity. -/
theorem remove_first_inject_of_position_none :
    ∀ (l : List Attribute), position attr_is_inject l = none →
      remove_first_inject l = l := by
  intro l
  induction l with
  | nil => intro _; rfl
  | cons a rest ih =>
    intro h
    unfold position at h
    by_cases hp : attr_is_inject a
    · rw [if_pos hp] at h; cases h
    · rw [if_neg hp] at h
      unfold remove_first_inject
      rw [if_neg hp]
      cases hj : position attr_is_inject rest with
      | none => rw [ih hj]
      | some j => rw [hj] at h; cases h

/-- Erasing at the index `position` found is removing the first `inject`
attribute. -/
theorem eraseIdx_position :
    ∀ (l : List Attribute) (i : Nat), position attr_is_inject l = some i →
      l.eraseIdx i = remove_first_inject l := by
  intro l
  induction l with
  | nil => intro i h; cases h
  | cons a rest ih =>
    intro i h
    unfold position at h
    by_cases hp : attr_is_inject a
    · rw [if_pos hp] at h
      cases h
      unfold remove_first_inject
      rw [if_pos hp]
      rfl
    · rw [if_neg hp] at h
      cases hj : position attr_is_inject rest with
      | none => rw [hj] at h; cases h
      | some j =>
        rw [hj] at h
        cases h
        unfold remove_first_inject
        rw [if_neg hp]
        simp only [List.eraseIdx]
        rw [ih j hj]

/-- The first component of the re-emitted output of `parse_injected_fields`
on a struct: each field keeps its identifier, its type and all attributes
except the first `inject` one. -/
theorem parse_injected_fields_fst (n : String) (fs : List Field) :
    (parse_injected_fields { ident := n, data := Data.Struct fs }).1 =
      { ident := n, data := Data.Struct (fs.map strip_first_inject_field) } := by
  simp only [parse_injected_fields, List.map_map]
  congr 1
  congr 1
  apply List.map_congr_left
  intro field _
  simp only [Function.comp]
  cases hp : get_inject_attrib_index field with
  | none =>
    have hnone : position attr_is_inject field.attrs = none := hp
    simp only [strip_first_inject_field,
      remove_first_inject_of_position_none _ hnone]
  | some i =>
    have hpos : position attr_is_inject field.attrs = some i := hp
    have hlt : i < field.attrs.length := position_lt_length _ _ _ hpos
    have hget : field.attrs[i]? = some field.attrs[i] :=
      List.getElem?_eq_getElem hlt
    simp only [hget, strip_first_inject_field, eraseIdx_position _ _ hpos]

/-- A successful run of the loop hands back exactly the `ast` it was given
as the re-emitted definition. -/
theorem injectable_loop_ast_of_generated (ast : DeriveInput)
    (ev : List String) :
    ∀ (fields : List (Field × Attribute)) (ms : List MatchArm)
      (a : DeriveInput) (nm : String) (e : List String)
      (arms : List MatchArm),
      injectable_loop ast ev fields ms =
        TokenOutput.Generated a nm e arms → a = ast := by
  intro fields
  induction fields with
  | nil =>
    intro ms a nm e arms h
    unfold injectable_loop at h
    injection h with h1 h2 h3 h4
    exact h1.symm
  | cons fa rest ih =>
    intro ms a nm e arms h
    obtain ⟨field, attrib⟩ := fa
    unfold injectable_loop at h
    cases hparse : EnumMember.parse attrib.tokens with
    | error e2 =>
      rw [hparse] at h
      cases h
    | ok member =>
      rw [hparse] at h
      simp only [] at h
      by_cases hm : member.has_enum_name ev
      · rw [if_pos hm] at h
        exact ih _ _ _ _ _ h
      · rw [if_neg hm] at h
        cases h

/-- Claim C9 counterexample: a field carrying two `inject` annotations.
Generation succeeds, but the re-emitted definition keeps the second
`inject` annotation — it is not the input with all inject annotations
removed. -/
theorem claim_C9_counterexample :
    (injectable ["A"]
      { ident := "S"
        data := Data.Struct
          [{ ident := "f", ty := "Injected"
             attrs := [{ path := ["inject"], tokens := ["A", "X"] },
                       { path := ["inject"], tokens := ["A", "Y"] }] }] } =
      TokenOutput.Generated
        { ident := "S"
          data := Data.Struct
            [{ ident := "f", ty := "Injected"
               attrs := [{ path := ["inject"], tokens := ["A", "Y"] }] }] }
        "S" ["A"]
        [{ member := { path := ["A", "X"] }, field_name := "f" }])
  ∧ (parse_injected_fields
      { ident := "S"
        data := Data.Struct
          [{ ident := "f", ty := "Injected"
             attrs := [{ path := ["inject"], tokens := ["A", "X"] },
                       { path := ["inject"], tokens := ["A", "Y"] }] }] }).1 ≠
    strip_all_inject
      { ident := "S"
        data := Data.Struct
          [{ ident := "f", ty := "Injected"
             attrs := [{ path := ["inject"], tokens := ["A", "X"] },
                       { path := ["inject"], tokens := ["A", "Y"] }] }] } := by
  constructor
  · decide
  · decide

/-- Claim C9 as amended: on successful generation the re-emitted type
definition equals the input with exactly the FIRST `inject` annotation
removed from each field that carries one; field names, field types, all
other attributes (including any further `inject` annotations) and all
unannotated fields are unchanged. -/
theorem claim_C9_strip_first_inject (attr : List String) (n : String)
    (fs : List Field) (ast : DeriveInput) (nm : String) (ev : List String)
    (arms : List MatchArm)
    (hgen : injectable attr { ident := n, data := Data.Struct fs } =
      TokenOutput.Generated ast nm ev arms) :
    ast = { ident := n, data := Data.Struct (fs.map strip_first_inject_field) } := by
  unfold injectable at hgen
  have := injectable_loop_ast_of_generated _ _ _ _ _ _ _ _ hgen
  rw [this, parse_injected_fields_fst]

/-- Claim C9 witness: the doc example's `Injectee` re-emitted with its
single `inject` annotation stripped from each field. -/
theorem claim_C9_witness :
    exAst = { ident := "Injectee"
              data := Data.Struct
                ([exFieldName, exFieldAge].map strip_first_inject_field) } :=
  claim_C9_strip_first_inject ["Model"] "Injectee" [exFieldName, exFieldAge]
    exAst "Injectee" ["Model"] exArms (by decide)

end Injectiny
